import Mathlib

/-!
Verification development for the `openllm-ocr-annotator` repository.

Shallow embedding of the annotation-orchestration and ensemble-voting core:
* `src/openllm_ocr_annotator/voters/weighted.py` (`WeightedVoter.vote`),
* `src/openllm_ocr_annotator/voters/manager.py` (`VotingManager`),
* `src/openllm_ocr_annotator/pipeline/annotator_processor.py`
  (`AnnotatorProcessor._process_single_mode`, `_process_sampling_mode`,
  `_parse_and_validate_result`, `_save_result`),
* `src/openllm_ocr_annotator/pipeline/run_annotation.py` (`run_batch_annotation`),
* `src/openllm_ocr_annotator/config/config_manager.py` (`EnsembleStrategy`).

Python floats are modelled as exact rationals (`ℚ`); Python dicts that keep
insertion order are modelled as association lists whose update functions
preserve first-insertion order; fallible Python code is modelled with
`Except`.  File-system interaction is modelled by passing the relevant cache
contents in explicitly and returning the produced effects (remote annotator
calls, file writes, renames) as a trace.
-/

namespace OCR

/-- One entry of a Python `fields` list, as consumed by `WeightedVoter.vote`
(`weighted.py` lines 84-94): the keys `field_name`, `value` and `confidence`
may each be absent (`field.get(..., None)` / `field.get("confidence", 1.0)`).
Values are modelled as strings, confidences as exact rationals. -/
structure VField where
  field_name : Option String
  value : Option String
  confidence : Option ℚ
deriving DecidableEq, Repr

/-- The `result` object of an annotation dict: `{"fields": [...]}`. -/
structure VResult where
  fields : List VField
deriving DecidableEq, Repr

/-- One annotation dict as passed to `WeightedVoter.vote`: `result` may be
absent (`annotation.get("result", {})` defaults to `{}`, whose `fields`
default to `[]`), and `model` is the key read by the fallback branch that
derives annotator ids (`weighted.py` line 67). -/
structure VAnnot where
  result : Option VResult
  model : Option String
deriving DecidableEq, Repr

/-- `annotation.get("result", {}).get("fields", [])` (`weighted.py` line 81). -/
def getFields (a : VAnnot) : List VField :=
  match a.result with
  | none => []
  | some r => r.fields

/-- Python truthiness of an optional string: `None` and `""` are falsy.
Used for the `if not all([field_name, field_value]): continue` test
(`weighted.py` line 89). -/
def pyTruthy : Option String → Bool
  | none => false
  | some s => !(s == "")

/-- The `weights` dict of a `WeightedVoter`, in insertion order. -/
abbrev Weights := List (String × ℚ)

/-- `WeightedVoter.get_weight`: `self.weights.get(annotator_id, 1.0)`
(`weighted.py` lines 46-48, `default_weight = 1.0`).  Dict keys are unique,
so first-match lookup coincides with Python's dict lookup. -/
def getWeight : Weights → String → ℚ
  | [], _ => 1
  | (k, x) :: rest, annotatorId =>
    if k = annotatorId then x else getWeight rest annotatorId

/-- The inner `defaultdict(float)` of `voted_fields`: accumulated score per
distinct value, in first-insertion order. -/
abbrev ValueVotes := List (String × ℚ)

/-- The outer `defaultdict` `voted_fields`: per field name, the value/score
table, in first-insertion order. -/
abbrev VotedFields := List (String × ValueVotes)

/-- `voted_fields[field_name][field_value] += x` on the inner dict:
add `x` to the entry for `v`, creating it (at the end) if absent. -/
def bumpValue (v : String) (x : ℚ) : ValueVotes → ValueVotes
  | [] => [(v, x)]
  | (v', s) :: rest =>
    if v' = v then (v', s + x) :: rest else (v', s) :: bumpValue v x rest

/-- `voted_fields[field_name][field_value] += x` on the outer dict. -/
def bumpField (n v : String) (x : ℚ) : VotedFields → VotedFields
  | [] => [(n, [(v, x)])]
  | (n', vs) :: rest =>
    if n' = n then (n', bumpValue v x vs) :: rest
    else (n', vs) :: bumpField n v x rest

/-- The inner loop of `WeightedVoter.vote` (`weighted.py` lines 84-94): for
each field of one annotation, skip it when `field_name` or `value` is falsy,
otherwise add `weight * confidence` (confidence defaulting to `1.0`) to the
tally for that name/value pair. -/
def processFields (w : ℚ) (fs : List VField) (acc : VotedFields) : VotedFields :=
  fs.foldl
    (fun acc f =>
      if pyTruthy f.field_name && pyTruthy f.value then
        bumpField (f.field_name.getD "") (f.value.getD "")
          (w * f.confidence.getD 1) acc
      else acc)
    acc

/-- The outer loop of `WeightedVoter.vote` (`weighted.py` lines 76-94): fold
over `zip(annotations, annotator_ids)`. -/
def tallyAnnotations (w : Weights) (anns : List VAnnot)
    (ids : List String) : VotedFields :=
  (anns.zip ids).foldl
    (fun acc p => processFields (getWeight w p.2) (getFields p.1) acc) []

/-- One output field dict `{"field_name": ..., "value": ..., "confidence": ...}`
(`weighted.py` lines 113-117); all three keys are always present. -/
structure OutField where
  field_name : String
  value : String
  confidence : ℚ
deriving DecidableEq, Repr

/-- The dict returned by a voter: `{"fields": [...]}`. -/
structure VoteOutput where
  fields : List OutField
deriving DecidableEq, Repr

/-- Python's `max(l, key=...)` over a non-empty list `best :: l`: keep the
current best unless a later element is strictly greater, so the first
maximal element wins. -/
def pickMax {β α : Type} [LinearOrder α] (best : β × α) :
    List (β × α) → β × α
  | [] => best
  | x :: rest => pickMax (if best.2 < x.2 then x else best) rest

/-- `sum(value_votes.values())` (`weighted.py` line 110). -/
def sumSnd (vs : ValueVotes) : ℚ := (vs.map Prod.snd).sum

/-- The result-compilation loop of `WeightedVoter.vote` (`weighted.py` lines
96-117): for each tallied field (in insertion order), skip it when its value
table is empty, otherwise emit the value with the highest accumulated score
together with `best / total` as confidence (`0` when the total is not
positive). -/
def compileResults (vf : VotedFields) : VoteOutput :=
  { fields :=
      vf.filterMap fun e =>
        match e.2 with
        | [] => none
        | v :: rest =>
          let best := pickMax v rest
          some ⟨e.1, best.1,
            if 0 < sumSnd e.2 then best.2 / sumSnd e.2 else 0⟩ }

/-- The fallback of `WeightedVoter.vote` when no annotator ids are given
(`weighted.py` lines 65-67): `"OpenAIAnnotator/" + ann["model"]`, a `KeyError`
when an annotation has no `model` key. -/
def deriveIds : List VAnnot → Except String (List String)
  | [] => Except.ok []
  | a :: rest =>
    match a.model with
    | some m => (deriveIds rest).map (fun ids => ("OpenAIAnnotator/" ++ m) :: ids)
    | none => Except.error "KeyError: model"

namespace WeightedVoter

/-- `WeightedVoter.vote` (`weighted.py` lines 50-119).  `annotatorIds = none`
models passing `annotator_ids=None`; note that Python's `if not annotator_ids`
also takes the fallback branch for an empty id list. -/
def vote (w : Weights) (anns : List VAnnot)
    (annotatorIds : Option (List String)) : Except String VoteOutput :=
  if anns.isEmpty then Except.error "No annotations provided"
  else
    (match annotatorIds with
      | some ids => if ids.isEmpty then deriveIds anns else Except.ok ids
      | none => deriveIds anns).bind
      fun ids =>
        if anns.length ≠ ids.length then
          Except.error "Number of annotations and annotator IDs must match"
        else Except.ok (compileResults (tallyAnnotations w anns ids))

end WeightedVoter

/-! ### MajorityVoter (modelled from the spec)

`run_annotation.py` imports `MajorityVoter` from
`src.openllm_ocr_annotator.voters.majority`, but that module is not present
under `src/` (only `manager.py` and `weighted.py` are).  The voter is
therefore modelled from the spec's words. -/

/-- Per field name, the occurrence count of each distinct value, in
first-encounter order. -/
abbrev MajTally := List (String × List (String × Nat))

/-- `tally[field_name][value] += 1` on the inner count table, creating the
entry (at the end, preserving first-encounter order) if absent. -/
def bumpCount (v : String) : List (String × Nat) → List (String × Nat)
  | [] => [(v, 1)]
  | (v', c) :: rest =>
    if v' = v then (v', c + 1) :: rest else (v', c) :: bumpCount v rest

/-- `tally[field_name][value] += 1` on the outer table. -/
def bumpFieldCount (n v : String) : MajTally → MajTally
  | [] => [(n, [(v, 1)])]
  | (n', vs) :: rest =>
    if n' = n then (n', bumpCount v vs) :: rest
    else (n', vs) :: bumpFieldCount n v rest

/-- Modelled from the spec: `MajorityVoter` tallying — "for each distinct
`field_name` seen across all inputs, tally raw value occurrences (unweighted
count)".  One input is one voter's field list, given as
(field name, value) pairs. -/
def majTally (inputs : List (List (String × String))) : MajTally :=
  inputs.foldl (fun acc fs => fs.foldl (fun acc f => bumpFieldCount f.1 f.2 acc) acc) []

namespace MajorityVoter

/-- Modelled from the spec: `MajorityVoter.vote` (source file
`voters/majority.py` is missing from `src/`; only its import in
`run_annotation.py` line 27 remains).  Spec section 4.5: "for each distinct
`field_name` seen across all inputs, tally raw value occurrences (unweighted
count) and select the value with the highest count; ties broken by
first-encountered insertion order among the tied values". -/
def vote (inputs : List (List (String × String))) : List (String × String) :=
  (majTally inputs).filterMap fun e =>
    match e.2 with
    | [] => none
    | v :: rest => some (e.1, (pickMax v rest).1)

end MajorityVoter

/-! ### AnnotatorProcessor (`pipeline/annotator_processor.py`)

The processor's file-system interaction is modelled by passing in the
contents of the relevant cache files (`none` = file absent,
`some (.error ())` = file exists but fails to load as JSON,
`some (.ok r)` = file loads to `r`) and the outcome of the (external)
annotator call, and by returning the effects the code performs — remote
annotator invocations and file writes — as a trace.  Parsing of raw model
output (`utils/formatter.parse_json_from_text`, an external helper) is
abstracted as the parse outcome `Except Unit JVal` of each raw blob. -/

/-- A JSON value, as stored in the `result` payload of a cached annotation
file. -/
inductive JVal where
  | null
  | jbool (b : Bool)
  | jnum (q : ℚ)
  | jstr (s : String)
  | jarr (xs : List JVal)
  | jobj (kvs : List (String × JVal))

/-- Python truthiness of a JSON value: `None`, `False`, `0`, `""`, `[]` and
`{}` are falsy.  Used for `if not result.get("result")` in
`_parse_and_validate_result` (line 170) and `if annotation:` in
`_process_single_mode` (line 234). -/
def JVal.truthy : JVal → Bool
  | .null => false
  | .jbool b => b
  | .jnum q => !(q == 0)
  | .jstr s => !(s == "")
  | .jarr xs => !xs.isEmpty
  | .jobj kvs => !kvs.isEmpty

/-- A persisted annotation result file, flattening the shape
`{"result": ..., "metadata": {"timestamp": ..., "sample_id": ...,
"temperature": ...}, **extra}`; a loaded cache file may lack any of the
keys, so all are optional.  `extra` holds the top-level keys (other than
`result`) copied from the raw annotator output in sampling mode
(`meta_info`, lines 280 and 289). -/
structure StoredAnn where
  result : Option JVal
  timestamp : Option Int
  sample_id : Option Nat
  temperature : Option ℚ
  extra : List (String × JVal)

/-- An effect performed by the processor: a remote annotator invocation, a
file write, or a rename (no code path of the repository performs a rename;
the constructor exists so that atomic write-to-temp-then-rename is even
expressible). -/
inductive Eff where
  | remoteCall
  | write (path : String) (content : StoredAnn)
  | rename (src dst : String)

/-- `AnnotatorProcessor._save_result` (lines 194-205): a single
`open(save_path, "w")` followed by `json.dump` — one direct write to the
final path (exceptions are logged and swallowed). -/
def saveResultEffects (r : StoredAnn) (savePath : String) : List Eff :=
  [Eff.write savePath r]

/-- `AnnotatorProcessor._parse_and_validate_result` (lines 147-192):
`raw` is the parse outcome of the raw annotation (string parsing that fails,
or any exception, yields `None`); a falsy `result` payload is discarded;
otherwise metadata is attached — the timestamp, and in sampling mode
(`sample_id is not None`) also the sample id and temperature. -/
def parseAndValidate (raw : Except Unit JVal) (now : Int)
    (sampleId : Option Nat) (temp : Option ℚ) : Option StoredAnn :=
  match raw with
  | .error _ => none
  | .ok v =>
    if v.truthy then
      some ⟨some v, some now, sampleId,
        (if sampleId.isSome then temp else none), []⟩
    else none

/-- `result.get("result", None)` truthiness for the single-mode cache check
(`_process_single_mode` lines 229-235): a missing `result` key is falsy. -/
def cachedPayloadTruthy (r : StoredAnn) : Bool :=
  match r.result with
  | some v => v.truthy
  | none => false

/-- Inputs of `_process_single_mode` for one image: the content of the cache
file at `{output_dir}/{stem}.json`, the annotate/parse outcome (outer
`Except`: `annotate` raising; inner: the parse outcome of its raw result),
and the wall-clock time. -/
structure SingleInput where
  cached : Option (Except Unit StoredAnn)
  annOut : Except Unit (Except Unit JVal)
  now : Int

/-- The cache-miss path of `_process_single_mode` (lines 239-254): invoke the
annotator, parse and validate, and on success save via `_save_result`. -/
def singleFetch (annOut : Except Unit (Except Unit JVal)) (now : Int)
    (stem : String) : Option StoredAnn × List Eff :=
  match annOut with
  | .error _ => (none, [Eff.remoteCall])
  | .ok raw =>
    match parseAndValidate raw now none none with
    | none => (none, [Eff.remoteCall])
    | some pr => (some pr, Eff.remoteCall :: saveResultEffects pr (stem ++ ".json"))

/-- `AnnotatorProcessor._process_single_mode` (lines 224-254): if the cache
file exists, loads, and its `result` payload is truthy, return it without
invoking the annotator; otherwise (including load errors and falsy payloads)
fall through to the annotate-parse-save path. -/
def processSingleMode (inp : SingleInput) (stem : String) :
    Option StoredAnn × List Eff :=
  match inp.cached with
  | some (.ok r) =>
    if cachedPayloadTruthy r then (some r, [])
    else singleFetch inp.annOut inp.now stem
  | some (.error _) => singleFetch inp.annOut inp.now stem
  | none => singleFetch inp.annOut inp.now stem

/-- The raw output of one sampling-mode `annotate` call:
`raw_results["result"]` is the list of raw samples (each abstracted by its
parse outcome) and `extra` the remaining top-level keys (`meta_info`). -/
structure SamplingRaw where
  samples : List (Except Unit JVal)
  extra : List (String × JVal)

/-- Inputs of `_process_sampling_mode` for one image: the contents of the
`num_samples` cache files `sample_{i}/{stem}.json` (one entry per sample
dir), the annotate outcome, the wall-clock time and the configured sampling
temperature. -/
structure SamplingInput where
  caches : List (Option (Except Unit StoredAnn))
  annOut : Except Unit SamplingRaw
  now : Int
  temperature : Option ℚ

/-- The existing-sample scan of `_process_sampling_mode` (lines 260-268):
each sample file that exists and loads contributes; absent files and load
errors are skipped. -/
def loadExisting (caches : List (Option (Except Unit StoredAnn))) :
    List StoredAnn :=
  caches.filterMap fun c =>
    match c with
    | some (.ok r) => some r
    | _ => none

/-- The cache path of sample slot `i`:
`sample_{i}/{stem}.json` (relative to the sampling directory). -/
def samplePath (i : Nat) (stem : String) : String :=
  "sample_" ++ toString i ++ "/" ++ stem ++ ".json"

/-- The per-sample loop of `_process_sampling_mode` (lines 283-292):
parse and validate sample `i`; on success merge in `meta_info`, save to
`sample_dirs[i]` and append to the results.  `n` is the number of sample
dirs; a parsed sample with `i ≥ n` raises `IndexError` at
`self.sample_dirs[i]`, which aborts the loop (the exception is caught by the
outer handler, so earlier writes persist and the call returns `None`); the
final `Bool` records such an abort. -/
def sampleLoop (extra : List (String × JVal)) (now : Int) (temp : Option ℚ)
    (stem : String) (n : Nat) : Nat → List (Except Unit JVal) →
    List StoredAnn × List Eff × Bool
  | _, [] => ([], [], false)
  | i, r :: rest =>
    match parseAndValidate r now (some i) temp with
    | none => sampleLoop extra now temp stem n (i + 1) rest
    | some pr =>
      if i < n then
        let pr' := { pr with extra := extra }
        let (s, e, a) := sampleLoop extra now temp stem n (i + 1) rest
        (pr' :: s, saveResultEffects pr' (samplePath i stem) ++ e, a)
      else ([], [], true)

/-- `AnnotatorProcessor._process_sampling_mode` (lines 256-298): collect the
loadable cached samples; if every slot is present, return them without
invoking the annotator; otherwise discard the partial results
(`results = []`, line 275), invoke the annotator once, and process every
returned sample — writing each parsed sample to its slot, including slots
that already had a cached file.  An empty processed list (or an abort)
yields `None`. -/
def processSamplingMode (inp : SamplingInput) (stem : String) :
    Option (List StoredAnn) × List Eff :=
  let results := loadExisting inp.caches
  if results.length = inp.caches.length then (some results, [])
  else
    match inp.annOut with
    | .error _ => (none, [Eff.remoteCall])
    | .ok raw =>
      let (saved, effs, aborted) :=
        sampleLoop raw.extra inp.now inp.temperature stem
          inp.caches.length 0 raw.samples
      (if aborted then none else if saved.isEmpty then none else some saved,
        Eff.remoteCall :: effs)

/-- `AnnotatorProcessor.process_single_image` (lines 207-222): dispatch on
`num_samples > 1`.  In sampling mode the class creates one sample dir per
sample index, so the cache-slot list has length `num_samples`. -/
def processSingleImage (numSamples : Nat) (single : SingleInput)
    (sampling : SamplingInput) (stem : String) :
    (Option StoredAnn × Option (List StoredAnn)) × List Eff :=
  if 1 < numSamples then
    let (r, e) := processSamplingMode sampling stem
    ((none, r), e)
  else
    let (r, e) := processSingleMode single stem
    ((r, none), e)

/-! ### VotingManager (`voters/manager.py`) and the voting loop of
`run_batch_annotation` (`pipeline/run_annotation.py`)

One annotator of the manager is one slot: its results-dict key
`"{AnnotatorName}/{model_version}"`, the content of its cache file
`{output_dir}/{name}/{model}/{stem}.json`, and the outcome of invoking it.
The per-annotator cache contents and the voted-result cache are threaded
explicitly; `calls` counts remote annotator invocations (attempts,
successful or not). -/

/-- One annotator as seen by `VotingManager.annotate_with_all`
(`manager.py` lines 69-114). -/
structure AnnSlot where
  key : String
  cache : Option (Except Unit VAnnot)
  annOut : Except Unit VAnnot

/-- The body of the `annotate_with_all` loop for one annotator (`manager.py`
lines 82-112): load the cached result if the file exists (a load error skips
the annotator — the `except` clause); otherwise invoke the annotator and
save its result (an annotate error skips, leaving no cache file).  Returns
the contributed `(key, result)` entries, the slot with its updated cache,
and the number of remote calls issued. -/
def stepSlot (s : AnnSlot) : List (String × VAnnot) × AnnSlot × Nat :=
  match s.cache with
  | some (.ok r) => ([(s.key, r)], s, 0)
  | some (.error _) => ([], s, 0)
  | none =>
    match s.annOut with
    | .ok r => ([(s.key, r)], { s with cache := some (.ok r) }, 1)
    | .error _ => ([], s, 1)

/-- `VotingManager.annotate_with_all` (`manager.py` lines 69-114): the loop
over all annotators; the results dict keeps slot (insertion) order. -/
def annotateWithAll : List AnnSlot →
    List (String × VAnnot) × List AnnSlot × Nat
  | [] => ([], [], 0)
  | s :: rest =>
    let (r1, s1, n1) := stepSlot s
    let (rs, rest', n) := annotateWithAll rest
    (r1 ++ rs, s1 :: rest', n1 + n)

/-- The metadata dict of a persisted voted result; each key may be absent.
`VotingManager.get_voted_result` writes `{"annotators": [...]}` alone
(`manager.py` lines 148-150); `run_batch_annotation` replaces the whole dict
by `{"task_id": ..., "image_path": ..., "timestamp": ...}`
(`run_annotation.py` lines 137-141). -/
structure VotedMeta where
  annotators : Option (List String)
  task_id : Option String
  image_path : Option String
  timestamp : Option String
deriving DecidableEq, Repr

/-- A persisted voted result: `{"result": {...}, "metadata": {...}}`. -/
structure VotedStored where
  result : VoteOutput
  metadata : VotedMeta
deriving DecidableEq, Repr

/-- A voter as consumed by the manager (`self.voter.vote(annotations,
annotator_ids)`, `manager.py` line 147): annotations plus optional annotator
ids, possibly raising. -/
abbrev Voter := List VAnnot → Option (List String) → Except String VoteOutput

/-- The outcome of one `get_voted_result` call: the returned value or the
raised error, together with the state it leaves behind (per-annotator
caches, the voted-result cache file) and the number of remote calls. -/
structure GvrOut where
  outcome : Except String VotedStored
  slots : List AnnSlot
  voted : Option (Except Unit VotedStored)
  calls : Nat

/-- `VotingManager.get_voted_result` (`manager.py` lines 116-157): return the
cached voted result if its file exists (a load error propagates as an
exception); otherwise collect all individual results via `annotate_with_all`,
raise `ValueError("No valid annotations to vote on")` when none are
available, vote with the collected annotator ids, persist the voted result
with metadata `{"annotators": ids}`, and return it. -/
def getVotedResult (voter : Voter) (slots : List AnnSlot)
    (votedCache : Option (Except Unit VotedStored)) : GvrOut :=
  match votedCache with
  | some (.ok v) => ⟨Except.ok v, slots, votedCache, 0⟩
  | some (.error _) =>
    ⟨Except.error "json load error on voted result", slots, votedCache, 0⟩
  | none =>
    let (results, slots', n) := annotateWithAll slots
    if results.isEmpty then
      ⟨Except.error "No valid annotations to vote on", slots', none, n⟩
    else
      match voter (results.map Prod.snd) (some (results.map Prod.fst)) with
      | .error e => ⟨Except.error e, slots', none, n⟩
      | .ok voteOut =>
        let v : VotedStored := ⟨voteOut, ⟨some (results.map Prod.fst), none, none, none⟩⟩
        ⟨Except.ok v, slots', some (.ok v), n⟩

/-- The per-image body of the voting loop of `run_batch_annotation`
(`run_annotation.py` lines 131-153), with `format = "json"`: get the voted
result, replace its `metadata` dict by the task metadata (dropping the
`annotators` key), and save it with `save_as_json` to the same
`voted_results/{stem}.json` path, overwriting the file `get_voted_result`
wrote.  Any exception is caught and the image is skipped, keeping whatever
state `get_voted_result` left behind. -/
def voteLoopBody (taskId imagePath now : String) (voter : Voter)
    (slots : List AnnSlot) (votedCache : Option (Except Unit VotedStored)) :
    List AnnSlot × Option (Except Unit VotedStored) × Nat :=
  let g := getVotedResult voter slots votedCache
  match g.outcome with
  | .error _ => (g.slots, g.voted, g.calls)
  | .ok v =>
    let v' : VotedStored :=
      { v with metadata := ⟨none, some taskId, some imagePath, some now⟩ }
    (g.slots, some (.ok v'), g.calls)

/-! ### `run_batch_annotation` phase structure (`pipeline/run_annotation.py`)
and `EnsembleStrategy` (`config/config_manager.py`)

The driver is modelled at phase granularity: the parallel annotation pass
over the image files, the per-image voting passes, and the dataset
conversion appear as events of a trace, in the order the code sequences
them.  The `ParallelProcessor` construction at `run_annotation.py` line 94
passes `max_workers=max_workers`, but `ParallelProcessor.__init__`
(`parallel_processor.py` line 33) accepts only
`(annotator_configs, output_dir)`, so in the current program that call
raises `TypeError` unconditionally; the outer handler (lines 185-187) logs
and re-raises it, aborting every run that reaches line 94.  The model keeps
that failure, so everything after the construction is dead code, embedded
for structure (the sub-phases' internal per-image errors, which the code
catches, are abstracted there). -/

/-- The `EnsembleStrategy` enum (`config_manager.py` lines 30-41). -/
inductive EnsembleStrategy where
  | weighted_vote
  | simple_vote
  | highest_confidence
deriving DecidableEq, Repr

/-- `EnsembleStrategy.from_str` (`config_manager.py` lines 36-41): resolve
the configured method string, raising `ValueError` on anything unknown. -/
def EnsembleStrategy.fromStr (s : String) : Except String EnsembleStrategy :=
  if s = "weighted_vote" then Except.ok .weighted_vote
  else if s = "simple_vote" then Except.ok .simple_vote
  else if s = "highest_confidence" then Except.ok .highest_confidence
  else Except.error ("Unknown voting strategy: " ++ s)

/-- A phase event of `run_batch_annotation`. -/
inductive BatchEv where
  | runAnnotators (images : List String)
  | voteImage (image : String)
  | createDataset
deriving DecidableEq, Repr

/-- The outcome of `ParallelProcessor(annotator_configs, output_path,
max_workers=max_workers)` at `run_annotation.py` line 94:
`ParallelProcessor.__init__` (`parallel_processor.py` lines 33-41) has no
`max_workers` parameter, so the call raises `TypeError` before any
annotator work. -/
def parallelProcessorCtor : Except String Unit :=
  Except.error
    "TypeError: ParallelProcessor.__init__() got an unexpected keyword argument max_workers"

/-- The phase structure of `run_batch_annotation` (`run_annotation.py` lines
43-187): create the output directory; return early when no images are
found; construct the `ParallelProcessor` — which in the current program
raises `TypeError` (see `parallelProcessorCtor`), re-raised by the outer
handler, so the run aborts here with an empty trace.  The remainder is dead
code, embedded for structure: the parallel annotation pass (line 97); when
ensemble voting is enabled, strategy resolution — an unknown method raises
`ValueError` and the `highest_confidence` branch raises
`NotImplementedError` (lines 107-112) — then the per-image voting loop
(each image's errors caught); finally, when requested, the dataset
conversion (errors caught; with voting disabled it is skipped with a
warning). -/
def runBatchAnnotate (images : List String)
    (ensemble : Option (Bool × String)) (createDataset : Bool) :
    List BatchEv × Except String Unit :=
  if images.isEmpty then ([], Except.ok ())
  else
    match parallelProcessorCtor with
    | .error e => ([], Except.error e)
    | .ok _ =>
      let tr := [BatchEv.runAnnotators images]
      match ensemble with
      | some (true, method) =>
        match EnsembleStrategy.fromStr method with
        | .error e => (tr, Except.error e)
        | .ok .highest_confidence =>
          (tr, Except.error "HighestConfidenceVoter is not implemented yet.")
        | .ok _ =>
          let tr := tr ++ images.map BatchEv.voteImage
          if createDataset then (tr ++ [BatchEv.createDataset], Except.ok ())
          else (tr, Except.ok ())
      | _ =>
        if createDataset then
          match ensemble with
          | none =>
            (tr, Except.error "AttributeError: NoneType object has no attribute enabled")
          | some _ => (tr, Except.ok ())
        else (tr, Except.ok ())

/-! ### Association-list scores and `pickMax` facts -/

/-- First-match lookup with default, the reading function for the
insertion-ordered dict models (their update functions keep keys unique, so
first-match agrees with dict lookup). -/
def lookupD {α : Type} (d : α) (k : String) : List (String × α) → α
  | [] => d
  | (k', x) :: rest => if k' = k then x else lookupD d k rest

/-- The accumulated score of value `u` for field `m` in a tally. -/
def fScore (m u : String) (vf : VotedFields) : ℚ :=
  lookupD 0 u (lookupD [] m vf)

/-- What one annotation's field list contributes to the tally entry of
field `m`, value `u`, at annotator weight `w`: the sum of
`w * confidence` over its non-falsy fields naming that pair. -/
def fieldsContrib (w : ℚ) (fs : List VField) (m u : String) : ℚ :=
  (fs.map fun f =>
    if (pyTruthy f.field_name && pyTruthy f.value) = true ∧
        f.field_name.getD "" = m ∧ f.value.getD "" = u then
      w * f.confidence.getD 1
    else 0).sum

/-- The total weighted contribution of a voting input to field `m`,
value `u`: the sum over all (annotation, annotator id) pairs of that
annotation's contribution at that annotator's weight. -/
def tallyContrib (w : Weights) (anns : List VAnnot) (ids : List String)
    (m u : String) : ℚ :=
  ((anns.zip ids).map fun p =>
    fieldsContrib (getWeight w p.2) (getFields p.1) m u).sum

/-- Drop from an annotation exactly the fields the voting loop skips: those
whose `field_name` or `value` is falsy (absent or the empty string). -/
def dropFalsyFields (a : VAnnot) : VAnnot :=
  { a with
    result := a.result.map fun r =>
      ⟨r.fields.filter fun f => pyTruthy f.field_name && pyTruthy f.value⟩ }

/-- The occurrence count of value `u` for field `m` in a majority tally. -/
def mCount (m u : String) (t : MajTally) : Nat :=
  lookupD 0 u (lookupD [] m t)

/-- The number of fields of one input naming field `m` with value `u`. -/
def fieldOcc (fs : List (String × String)) (m u : String) : Nat :=
  (fs.map fun f => if f.1 = m ∧ f.2 = u then 1 else 0).sum

/-- The number of occurrences of value `u` for field `m` across all inputs. -/
def totalOcc (inputs : List (List (String × String))) (m u : String) : Nat :=
  (inputs.map fun fs => fieldOcc fs m u).sum

/-- The shape C3 claims for `_save_result`: write to a distinct temporary
path, then rename it onto the destination. -/
def atomicSaveShape (r : StoredAnn) (path : String) : Prop :=
  ∃ tmp c, tmp ≠ path ∧
    saveResultEffects r path = [Eff.write tmp c, Eff.rename tmp path]

/-- A slot with no data: no loadable cache file, and the annotator call
fails. -/
def slotNoData (s : AnnSlot) : Prop :=
  (s.cache = none ∨ ∃ u, s.cache = some (Except.error u)) ∧
  ∃ u, s.annOut = Except.error u

/-- A slot the first run can resolve: either its cache file already loads,
or it has no cache file and its annotator call succeeds. -/
def slotProductive (s : AnnSlot) : Prop :=
  (∃ r, s.cache = some (Except.ok r)) ∨
  (s.cache = none ∧ ∃ r, s.annOut = Except.ok r)

theorem pickMax_cases {β α : Type} [LinearOrder α] (best : β × α)
    (l : List (β × α)) :
    (pickMax best l = best ∧ ∀ p ∈ l, p.2 ≤ best.2) ∨
    (∃ pre p post, l = pre ++ p :: post ∧ pickMax best l = p ∧
      best.2 < p.2 ∧ (∀ q ∈ pre, q.2 < p.2) ∧ (∀ q ∈ post, q.2 ≤ p.2)) := by
  induction l generalizing best with
  | nil => exact Or.inl ⟨rfl, by simp⟩
  | cons x rest ih =>
    rw [pickMax]
    by_cases hx : best.2 < x.2
    · rw [if_pos hx]
      rcases ih x with ⟨heq, hle⟩ | ⟨pre, p, post, hsplit, heq, hlt, hpre, hpost⟩
      · refine Or.inr ⟨[], x, rest, by simp, heq, hx, by simp, hle⟩
      · refine Or.inr ⟨x :: pre, p, post, by simp [hsplit], heq,
          lt_trans hx hlt, ?_, hpost⟩
        intro q hq
        rcases List.mem_cons.mp hq with h | h
        · exact h ▸ hlt
        · exact hpre q h
    · rw [if_neg hx]
      rcases ih best with ⟨heq, hle⟩ | ⟨pre, p, post, hsplit, heq, hlt, hpre, hpost⟩
      · refine Or.inl ⟨heq, ?_⟩
        intro q hq
        rcases List.mem_cons.mp hq with h | h
        · exact h ▸ le_of_not_lt hx
        · exact hle q h
      · refine Or.inr ⟨x :: pre, p, post, by simp [hsplit], heq, hlt, ?_, hpost⟩
        intro q hq
        rcases List.mem_cons.mp hq with h | h
        · exact h ▸ lt_of_le_of_lt (le_of_not_lt hx) hlt
        · exact hpre q h

theorem pickMax_mem {β α : Type} [LinearOrder α] (best : β × α)
    (l : List (β × α)) : pickMax best l ∈ best :: l := by
  rcases pickMax_cases best l with ⟨heq, _⟩ | ⟨pre, p, post, hsplit, heq, _, _, _⟩
  · simp [heq]
  · rw [heq, hsplit]
    simp

theorem pickMax_ge {β α : Type} [LinearOrder α] (best : β × α)
    (l : List (β × α)) : ∀ p ∈ best :: l, p.2 ≤ (pickMax best l).2 := by
  rcases pickMax_cases best l with ⟨heq, hle⟩ | ⟨pre, p, post, hsplit, heq, hlt, hpre, hpost⟩
  · intro q hq
    rw [heq]
    rcases List.mem_cons.mp hq with h | h
    · exact le_of_eq (congrArg Prod.snd h)
    · exact hle q h
  · intro q hq
    rw [heq]
    rcases List.mem_cons.mp hq with h | h
    · exact h ▸ le_of_lt hlt
    · rw [hsplit] at h
      rcases List.mem_append.mp h with h | h
      · exact le_of_lt (hpre q h)
      · rcases List.mem_cons.mp h with h | h
        · exact le_of_eq (congrArg Prod.snd h)
        · exact hpost q h

/-- `pickMax` chooses the first maximal element: in `best :: l` everything
strictly before the choice scores strictly less, everything after scores no
more. -/
theorem pickMax_first {β α : Type} [LinearOrder α] (best : β × α)
    (l : List (β × α)) :
    ∃ pre post, best :: l = pre ++ pickMax best l :: post ∧
      (∀ q ∈ pre, q.2 < (pickMax best l).2) ∧
      (∀ q ∈ post, q.2 ≤ (pickMax best l).2) := by
  rcases pickMax_cases best l with ⟨heq, hle⟩ | ⟨pre, p, post, hsplit, heq, hlt, hpre, hpost⟩
  · refine ⟨[], l, by simp [heq], by simp, ?_⟩
    intro q hq
    rw [heq]
    exact hle q hq
  · refine ⟨best :: pre, post, ?_, ?_, ?_⟩
    · rw [heq, hsplit]
      simp
    · intro q hq
      rw [heq]
      rcases List.mem_cons.mp hq with h | h
      · exact h ▸ hlt
      · exact hpre q h
    · intro q hq
      rw [heq]
      exact hpost q hq

theorem lookupD_bumpValue (u v : String) (x : ℚ) (vs : ValueVotes) :
    lookupD 0 u (bumpValue v x vs)
      = lookupD 0 u vs + (if v = u then x else 0) := by
  induction vs with
  | nil => by_cases h : v = u <;> simp [bumpValue, lookupD, h]
  | cons e rest ih =>
    obtain ⟨v', s⟩ := e
    rw [bumpValue]
    by_cases h1 : v' = v
    · subst h1
      by_cases h2 : v' = u <;> simp [lookupD, h2]
    · rw [if_neg h1]
      by_cases h2 : v' = u
      · have : v ≠ u := fun h => h1 (h2.trans h.symm)
        simp [lookupD, h2, this]
      · simp [lookupD, h2, ih]

theorem lookupD_bumpField (m n v : String) (x : ℚ) (vf : VotedFields) :
    lookupD [] m (bumpField n v x vf)
      = if n = m then bumpValue v x (lookupD [] m vf)
        else lookupD [] m vf := by
  induction vf with
  | nil => by_cases h : n = m <;> simp [bumpField, lookupD, h, bumpValue]
  | cons e rest ih =>
    obtain ⟨n', vs⟩ := e
    rw [bumpField]
    by_cases h1 : n' = n
    · subst h1
      by_cases h2 : n' = m <;> simp [lookupD, h2]
    · rw [if_neg h1]
      by_cases h2 : n' = m
      · have : n ≠ m := fun h => h1 (h2.trans h.symm)
        simp [lookupD, h2, this]
      · simp [lookupD, h2, ih]

theorem fScore_bumpField (m u n v : String) (x : ℚ) (vf : VotedFields) :
    fScore m u (bumpField n v x vf)
      = fScore m u vf + (if n = m ∧ v = u then x else 0) := by
  rw [fScore, fScore, lookupD_bumpField]
  by_cases h1 : n = m
  · rw [if_pos h1, lookupD_bumpValue]
    by_cases h2 : v = u <;> simp [h1, h2]
  · simp [h1]

theorem fScore_processFields (m u : String) (w : ℚ) (fs : List VField)
    (acc : VotedFields) :
    fScore m u (processFields w fs acc)
      = fScore m u acc + fieldsContrib w fs m u := by
  induction fs generalizing acc with
  | nil => simp [processFields, fieldsContrib]
  | cons f rest ih =>
    have hcons : fieldsContrib w (f :: rest) m u
        = (if (pyTruthy f.field_name && pyTruthy f.value) = true ∧
              f.field_name.getD "" = m ∧ f.value.getD "" = u then
            w * f.confidence.getD 1 else 0) + fieldsContrib w rest m u := by
      simp [fieldsContrib]
    rw [hcons, processFields, List.foldl_cons]
    by_cases hg : (pyTruthy f.field_name && pyTruthy f.value) = true
    · rw [if_pos hg]
      have hstep := ih (bumpField (f.field_name.getD "") (f.value.getD "")
        (w * f.confidence.getD 1) acc)
      rw [processFields] at hstep
      rw [hstep, fScore_bumpField]
      by_cases hmv : f.field_name.getD "" = m ∧ f.value.getD "" = u
      · rw [if_pos hmv, if_pos ⟨hg, hmv⟩]
        ring
      · rw [if_neg hmv, if_neg (fun hc => hmv hc.2)]
        ring
    · rw [if_neg hg, if_neg (fun hc => hg hc.1)]
      have hstep := ih acc
      rw [processFields] at hstep
      rw [hstep]
      ring

theorem fScore_tally (m u : String) (w : Weights) (anns : List VAnnot)
    (ids : List String) :
    fScore m u (tallyAnnotations w anns ids) = tallyContrib w anns ids m u := by
  suffices h : ∀ (l : List (VAnnot × String)) (acc : VotedFields),
      fScore m u (l.foldl
        (fun acc p => processFields (getWeight w p.2) (getFields p.1) acc) acc)
        = fScore m u acc
          + (l.map fun p => fieldsContrib (getWeight w p.2) (getFields p.1) m u).sum by
    rw [tallyAnnotations, tallyContrib, h (anns.zip ids) []]
    simp [fScore, lookupD]
  intro l
  induction l with
  | nil => simp
  | cons p rest ih =>
    intro acc
    rw [List.foldl_cons, ih, fScore_processFields]
    simp
    ring

theorem bumpValue_ne_nil (v : String) (x : ℚ) (vs : ValueVotes) :
    bumpValue v x vs ≠ [] := by
  cases vs with
  | nil => simp [bumpValue]
  | cons e rest =>
    obtain ⟨v', s⟩ := e
    rw [bumpValue]
    by_cases h : v' = v <;> simp [h]

theorem bumpField_nonempty (n v : String) (x : ℚ) (vf : VotedFields)
    (h : ∀ e ∈ vf, e.2 ≠ []) : ∀ e ∈ bumpField n v x vf, e.2 ≠ [] := by
  induction vf with
  | nil =>
    intro e he
    rw [bumpField] at he
    rcases List.mem_singleton.mp he with rfl
    simp
  | cons hd rest ih =>
    obtain ⟨n', vs⟩ := hd
    intro e he
    rw [bumpField] at he
    by_cases h1 : n' = n
    · rw [if_pos h1] at he
      rcases List.mem_cons.mp he with rfl | hm
      · exact bumpValue_ne_nil v x vs
      · exact h e (List.mem_cons_of_mem _ hm)
    · rw [if_neg h1] at he
      rcases List.mem_cons.mp he with rfl | hm
      · exact h _ (List.mem_cons_self _ _)
      · exact ih (fun e2 he2 => h e2 (List.mem_cons_of_mem _ he2)) e hm

theorem processFields_nonempty (w : ℚ) (fs : List VField) (acc : VotedFields)
    (h : ∀ e ∈ acc, e.2 ≠ []) : ∀ e ∈ processFields w fs acc, e.2 ≠ [] := by
  induction fs generalizing acc with
  | nil => exact h
  | cons f rest ih =>
    rw [processFields, List.foldl_cons]
    by_cases hg : (pyTruthy f.field_name && pyTruthy f.value) = true
    · rw [if_pos hg]
      exact ih _ (bumpField_nonempty _ _ _ _ h)
    · rw [if_neg hg]
      exact ih _ h

theorem tally_nonempty (w : Weights) (anns : List VAnnot)
    (ids : List String) : ∀ e ∈ tallyAnnotations w anns ids, e.2 ≠ [] := by
  suffices h : ∀ (l : List (VAnnot × String)) (acc : VotedFields),
      (∀ e ∈ acc, e.2 ≠ []) →
      ∀ e ∈ l.foldl
        (fun acc p => processFields (getWeight w p.2) (getFields p.1) acc) acc,
        e.2 ≠ [] by
    exact h (anns.zip ids) [] (by simp)
  intro l
  induction l with
  | nil => intro acc hacc; simpa using hacc
  | cons p rest ih =>
    intro acc hacc
    rw [List.foldl_cons]
    exact ih _ (processFields_nonempty _ _ _ hacc)

theorem compileResults_names (vf : VotedFields) (h : ∀ e ∈ vf, e.2 ≠ []) :
    (compileResults vf).fields.map OutField.field_name = vf.map Prod.fst := by
  induction vf with
  | nil => simp [compileResults]
  | cons e rest ih =>
    obtain ⟨n, vs⟩ := e
    have hne : vs ≠ [] := h (n, vs) (List.mem_cons_self _ _)
    obtain ⟨v, tail, rfl⟩ := List.exists_cons_of_ne_nil hne
    rw [compileResults] at ih ⊢
    simp only [List.filterMap_cons]
    simpa using ih (fun e he => h e (List.mem_cons_of_mem _ he))

theorem compileResults_sound (vf : VotedFields) :
    ∀ e ∈ vf, ∀ v tail, e.2 = v :: tail →
      ∃ c, c ∈ e.2 ∧ (∀ p ∈ e.2, p.2 ≤ c.2) ∧
        OutField.mk e.1 c.1
          (if 0 < sumSnd e.2 then c.2 / sumSnd e.2 else 0)
          ∈ (compileResults vf).fields := by
  intro e he v tail h2
  refine ⟨pickMax v tail, h2 ▸ pickMax_mem v tail, h2 ▸ pickMax_ge v tail, ?_⟩
  rw [compileResults]
  apply List.mem_filterMap.mpr
  refine ⟨e, he, ?_⟩
  rw [h2]

/-- Reduction of `WeightedVoter.vote` on the well-formed path: a non-empty
annotation list with a matching, non-empty id list compiles the tally. -/
theorem vote_reduce (w : Weights) (anns : List VAnnot)
    (ids : List String) (h1 : anns ≠ []) (h2 : ids ≠ [])
    (h3 : anns.length = ids.length) :
    WeightedVoter.vote w anns (some ids)
      = Except.ok (compileResults (tallyAnnotations w anns ids)) := by
  rw [WeightedVoter.vote]
  rw [if_neg (by simpa [List.isEmpty_iff] using h1)]
  rw [if_neg (by simpa [List.isEmpty_iff] using h2)]
  simp [Except.bind, h3]

/-! ### Claim theorems -/

/-- C1: for every non-empty annotation list with a matching id list,
`WeightedVoter.vote` succeeds and returns the compiled tally, where (a) the
tally accumulates `weight(voterId) * confidence` per distinct value of each
field name (confidence defaulting to 1, weight defaulting to 1 for unmapped
ids — both defaults baked into `getD`/`getWeight`), (b) each tallied field
yields exactly one output field whose value carries a maximal accumulated
score and whose reported confidence is `winning_score / total_score` (0 when
the total is not positive), and (c) on voters v1 (weight 1, confidence 0.6
for "X") and v2 (weight 2, confidence 0.9 for "Y") on the same field it
chooses "Y" with confidence 0.75. -/
theorem weightedVoter_vote_spec (w : Weights) (anns : List VAnnot)
    (ids : List String) (h1 : anns ≠ []) (h2 : ids ≠ [])
    (h3 : anns.length = ids.length) :
    WeightedVoter.vote w anns (some ids)
      = Except.ok (compileResults (tallyAnnotations w anns ids)) ∧
    (∀ m u, fScore m u (tallyAnnotations w anns ids)
      = tallyContrib w anns ids m u) ∧
    (∀ e ∈ tallyAnnotations w anns ids, ∃ c, c ∈ e.2 ∧
      (∀ p ∈ e.2, p.2 ≤ c.2) ∧
      OutField.mk e.1 c.1 (if 0 < sumSnd e.2 then c.2 / sumSnd e.2 else 0)
        ∈ (compileResults (tallyAnnotations w anns ids)).fields) ∧
    ((compileResults (tallyAnnotations w anns ids)).fields.map OutField.field_name
      = (tallyAnnotations w anns ids).map Prod.fst) ∧
    WeightedVoter.vote [("v1", 1), ("v2", 2)]
      [⟨some ⟨[⟨some "f", some "X", some ((3:ℚ)/5)⟩]⟩, none⟩,
       ⟨some ⟨[⟨some "f", some "Y", some ((9:ℚ)/10)⟩]⟩, none⟩]
      (some ["v1", "v2"]) = Except.ok ⟨[⟨"f", "Y", (3:ℚ)/4⟩]⟩ := by
  refine ⟨vote_reduce w anns ids h1 h2 h3,
    fun m u => fScore_tally m u w anns ids, ?_,
    compileResults_names _ (tally_nonempty w anns ids), ?_⟩
  · intro e he
    obtain ⟨v, tail, hvt⟩ :=
      List.exists_cons_of_ne_nil (tally_nonempty w anns ids e he)
    exact compileResults_sound _ e he v tail hvt
  · norm_num +decide [WeightedVoter.vote, tallyAnnotations, processFields,
      compileResults, getFields, pyTruthy, getWeight, bumpField, bumpValue,
      pickMax, sumSnd, Except.bind, List.filterMap_cons]

/-- Witness for C1: the concrete two-voter instance, obtained by applying
`weightedVoter_vote_spec` at that instance. -/
theorem weightedVoter_vote_spec_witness :
    WeightedVoter.vote [("v1", 1), ("v2", 2)]
      [⟨some ⟨[⟨some "f", some "X", some ((3:ℚ)/5)⟩]⟩, none⟩,
       ⟨some ⟨[⟨some "f", some "Y", some ((9:ℚ)/10)⟩]⟩, none⟩]
      (some ["v1", "v2"]) = Except.ok ⟨[⟨"f", "Y", (3:ℚ)/4⟩]⟩ :=
  (weightedVoter_vote_spec [("v1", 1), ("v2", 2)]
    [⟨some ⟨[⟨some "f", some "X", some ((3:ℚ)/5)⟩]⟩, none⟩,
     ⟨some ⟨[⟨some "f", some "Y", some ((9:ℚ)/10)⟩]⟩, none⟩]
    ["v1", "v2"] (List.cons_ne_nil _ _) (List.cons_ne_nil _ _) rfl).2.2.2.2

theorem foldl_filter_step {α β : Type} (p : β → Bool) (s : α → β → α)
    (h : ∀ acc f, p f = false → s acc f = acc) :
    ∀ (l : List β) (acc : α), (l.filter p).foldl s acc = l.foldl s acc := by
  intro l
  induction l with
  | nil => intro acc; rfl
  | cons f rest ih =>
    intro acc
    by_cases hf : p f = true
    · rw [List.filter_cons, if_pos hf, List.foldl_cons, List.foldl_cons, ih]
    · have hf2 : p f = false := by simpa using hf
      rw [List.filter_cons, if_neg (by simp [hf2]), List.foldl_cons,
        h acc f hf2, ih]

theorem processFields_filter (w : ℚ) (fs : List VField) (acc : VotedFields) :
    processFields w
      (fs.filter fun f => pyTruthy f.field_name && pyTruthy f.value) acc
      = processFields w fs acc := by
  rw [processFields, processFields]
  apply foldl_filter_step
  intro acc f hf
  rw [if_neg (by simp [hf])]

theorem getFields_dropFalsy (a : VAnnot) :
    getFields (dropFalsyFields a)
      = (getFields a).filter fun f => pyTruthy f.field_name && pyTruthy f.value := by
  cases a with
  | mk r m => cases r <;> rfl

theorem deriveIds_dropFalsy (anns : List VAnnot) :
    deriveIds (anns.map dropFalsyFields) = deriveIds anns := by
  induction anns with
  | nil => rfl
  | cons a rest ih =>
    rw [List.map_cons, deriveIds, deriveIds]
    have hm : (dropFalsyFields a).model = a.model := rfl
    rw [hm, ih]

theorem tally_dropFalsy (w : Weights) (anns : List VAnnot)
    (ids : List String) :
    tallyAnnotations w (anns.map dropFalsyFields) ids
      = tallyAnnotations w anns ids := by
  rw [tallyAnnotations, tallyAnnotations]
  suffices h : ∀ (anns : List VAnnot) (ids : List String) (acc : VotedFields),
      ((anns.map dropFalsyFields).zip ids).foldl
        (fun acc p => processFields (getWeight w p.2) (getFields p.1) acc) acc
      = (anns.zip ids).foldl
        (fun acc p => processFields (getWeight w p.2) (getFields p.1) acc) acc by
    exact h anns ids []
  intro anns
  induction anns with
  | nil => intro ids acc; rfl
  | cons a rest ih =>
    intro ids acc
    cases ids with
    | nil => rfl
    | cons i ids2 =>
      rw [List.map_cons, List.zip_cons_cons, List.zip_cons_cons,
        List.foldl_cons, List.foldl_cons, getFields_dropFalsy,
        processFields_filter, ih]

/-- C10 (implicit): `WeightedVoter.vote` ignores a field entirely whenever
its `field_name` or its `value` is falsy — dropping all such fields from
every annotation of the input changes nothing about the vote; in particular
an annotation voting the empty string (or voting under a missing field name)
contributes no tally entry at all. -/
theorem weightedVoter_ignores_falsy_fields (w : Weights)
    (anns : List VAnnot) (idsOpt : Option (List String)) :
    WeightedVoter.vote w (anns.map dropFalsyFields) idsOpt
      = WeightedVoter.vote w anns idsOpt ∧
    tallyAnnotations w
      [⟨some ⟨[⟨some "f", some "", some 1⟩, ⟨none, some "A", some 1⟩]⟩, none⟩]
      ["v"] = [] := by
  constructor
  · cases anns with
    | nil => rfl
    | cons a rest =>
      simp only [WeightedVoter.vote]
      simp only [List.map_cons, List.isEmpty_cons, if_false, Bool.false_eq_true]
      have hids : (match idsOpt with
          | some ids =>
            if ids.isEmpty then deriveIds ((a :: rest).map dropFalsyFields)
            else Except.ok ids
          | none => deriveIds ((a :: rest).map dropFalsyFields))
          = (match idsOpt with
          | some ids =>
            if ids.isEmpty then deriveIds (a :: rest) else Except.ok ids
          | none => deriveIds (a :: rest)) := by
        cases idsOpt with
        | none => exact deriveIds_dropFalsy (a :: rest)
        | some ids =>
          by_cases h : ids.isEmpty <;> simp only [h, if_true, if_false]
          · simpa using deriveIds_dropFalsy (a :: rest)
          · simp [h]
      rw [List.map_cons] at hids
      rw [hids]
      cases hd : (match idsOpt with
          | some ids =>
            if ids.isEmpty then deriveIds (a :: rest) else Except.ok ids
          | none => deriveIds (a :: rest)) with
      | error e => rfl
      | ok ids =>
        show Except.bind _ _ = Except.bind _ _
        rw [Except.bind, Except.bind]
        simp only [List.length_cons, List.length_map]
        by_cases hl : (a :: rest).length ≠ ids.length
        · rw [if_pos (by simpa using hl), if_pos (by simpa using hl)]
        · rw [if_neg (by simpa using hl), if_neg (by simpa using hl)]
          rw [← List.map_cons dropFalsyFields a rest, tally_dropFalsy]
  · rfl

/-! ### MajorityVoter lemmas (C8) -/

theorem lookupD_bumpCount (u v : String) (vs : List (String × Nat)) :
    lookupD 0 u (bumpCount v vs)
      = lookupD 0 u vs + (if v = u then 1 else 0) := by
  induction vs with
  | nil => by_cases h : v = u <;> simp [bumpCount, lookupD, h]
  | cons e rest ih =>
    obtain ⟨v', c⟩ := e
    rw [bumpCount]
    by_cases h1 : v' = v
    · subst h1
      by_cases h2 : v' = u <;> simp [lookupD, h2]
    · rw [if_neg h1]
      by_cases h2 : v' = u
      · have : v ≠ u := fun h => h1 (h2.trans h.symm)
        simp [lookupD, h2, this]
      · simp [lookupD, h2, ih]

theorem lookupD_bumpFieldCount (m n v : String) (t : MajTally) :
    lookupD [] m (bumpFieldCount n v t)
      = if n = m then bumpCount v (lookupD [] m t) else lookupD [] m t := by
  induction t with
  | nil => by_cases h : n = m <;> simp [bumpFieldCount, lookupD, h, bumpCount]
  | cons e rest ih =>
    obtain ⟨n', vs⟩ := e
    rw [bumpFieldCount]
    by_cases h1 : n' = n
    · subst h1
      by_cases h2 : n' = m <;> simp [lookupD, h2]
    · rw [if_neg h1]
      by_cases h2 : n' = m
      · have : n ≠ m := fun h => h1 (h2.trans h.symm)
        simp [lookupD, h2, this]
      · simp [lookupD, h2, ih]

theorem mCount_bumpFieldCount (m u n v : String) (t : MajTally) :
    mCount m u (bumpFieldCount n v t)
      = mCount m u t + (if n = m ∧ v = u then 1 else 0) := by
  rw [mCount, mCount, lookupD_bumpFieldCount]
  by_cases h1 : n = m
  · rw [if_pos h1, lookupD_bumpCount]
    by_cases h2 : v = u <;> simp [h1, h2]
  · simp [h1]

theorem mCount_foldInput (m u : String) (fs : List (String × String))
    (acc : MajTally) :
    mCount m u (fs.foldl (fun acc f => bumpFieldCount f.1 f.2 acc) acc)
      = mCount m u acc + fieldOcc fs m u := by
  induction fs generalizing acc with
  | nil => simp [fieldOcc]
  | cons f rest ih =>
    rw [List.foldl_cons, ih, mCount_bumpFieldCount]
    have : fieldOcc (f :: rest) m u
        = (if f.1 = m ∧ f.2 = u then 1 else 0) + fieldOcc rest m u := by
      simp [fieldOcc]
    rw [this]
    omega

theorem mCount_majTally (m u : String)
    (inputs : List (List (String × String))) :
    mCount m u (majTally inputs) = totalOcc inputs m u := by
  suffices h : ∀ (l : List (List (String × String))) (acc : MajTally),
      mCount m u (l.foldl
        (fun acc fs => fs.foldl (fun acc f => bumpFieldCount f.1 f.2 acc) acc) acc)
        = mCount m u acc + totalOcc l m u by
    rw [majTally, h inputs []]
    simp [mCount, lookupD]
  intro l
  induction l with
  | nil => intro acc; simp [totalOcc]
  | cons fs rest ih =>
    intro acc
    rw [List.foldl_cons, ih, mCount_foldInput]
    have : totalOcc (fs :: rest) m u = fieldOcc fs m u + totalOcc rest m u := by
      simp [totalOcc]
    rw [this]
    omega

theorem bumpCount_ne_nil (v : String) (vs : List (String × Nat)) :
    bumpCount v vs ≠ [] := by
  cases vs with
  | nil => simp [bumpCount]
  | cons e rest =>
    obtain ⟨v', c⟩ := e
    rw [bumpCount]
    by_cases h : v' = v <;> simp [h]

theorem bumpFieldCount_nonempty (n v : String) (t : MajTally)
    (h : ∀ e ∈ t, e.2 ≠ []) : ∀ e ∈ bumpFieldCount n v t, e.2 ≠ [] := by
  induction t with
  | nil =>
    intro e he
    rw [bumpFieldCount] at he
    rcases List.mem_singleton.mp he with rfl
    simp
  | cons hd rest ih =>
    obtain ⟨n', vs⟩ := hd
    intro e he
    rw [bumpFieldCount] at he
    by_cases h1 : n' = n
    · rw [if_pos h1] at he
      rcases List.mem_cons.mp he with rfl | hm
      · exact bumpCount_ne_nil v vs
      · exact h e (List.mem_cons_of_mem _ hm)
    · rw [if_neg h1] at he
      rcases List.mem_cons.mp he with rfl | hm
      · exact h _ (List.mem_cons_self _ _)
      · exact ih (fun e2 he2 => h e2 (List.mem_cons_of_mem _ he2)) e hm

theorem majVote_names (t : MajTally) (h : ∀ e ∈ t, e.2 ≠ []) :
    (t.filterMap fun e =>
      match e.2 with
      | [] => none
      | v :: rest => some (e.1, (pickMax v rest).1)).map Prod.fst
      = t.map Prod.fst := by
  induction t with
  | nil => rfl
  | cons e rest ih =>
    obtain ⟨n, vs⟩ := e
    have hne : vs ≠ [] := h (n, vs) (List.mem_cons_self _ _)
    obtain ⟨v, tail, rfl⟩ := List.exists_cons_of_ne_nil hne
    simp only [List.filterMap_cons]
    simpa using ih (fun e2 he2 => h e2 (List.mem_cons_of_mem _ he2))

theorem majTally_nonempty (inputs : List (List (String × String))) :
    ∀ e ∈ majTally inputs, e.2 ≠ [] := by
  suffices h : ∀ (l : List (List (String × String))) (acc : MajTally),
      (∀ e ∈ acc, e.2 ≠ []) →
      ∀ e ∈ l.foldl
        (fun acc fs => fs.foldl (fun acc f => bumpFieldCount f.1 f.2 acc) acc) acc,
        e.2 ≠ [] by
    exact h inputs [] (by simp)
  intro l
  induction l with
  | nil => intro acc hacc; simpa using hacc
  | cons fs rest ih =>
    intro acc hacc
    rw [List.foldl_cons]
    apply ih
    clear ih
    induction fs generalizing acc with
    | nil => exact hacc
    | cons f frest fih =>
      rw [List.foldl_cons]
      exact fih _ (bumpFieldCount_nonempty _ _ _ hacc)

/-- C8 (spec-modelled): `MajorityVoter` tallies unweighted value occurrences
per distinct field name — (a) the tallied count of value `u` for field `m`
equals the number of raw occurrences of that pair across all inputs; (b)
each tallied field contributes exactly one output pair, and the chosen value
splits its count table into strictly-smaller earlier entries and
no-larger later entries (maximal count, ties broken by first-encountered
insertion order); (c) the output lists exactly the distinct field names; and
(d) for field `f` with votes A, A, B across three voters it chooses A. -/
theorem majorityVoter_vote_spec (inputs : List (List (String × String))) :
    (∀ m u, mCount m u (majTally inputs) = totalOcc inputs m u) ∧
    (∀ e ∈ majTally inputs, ∃ c pre post, e.2 = pre ++ c :: post ∧
      (∀ q ∈ pre, q.2 < c.2) ∧ (∀ q ∈ post, q.2 ≤ c.2) ∧
      (e.1, c.1) ∈ MajorityVoter.vote inputs) ∧
    ((MajorityVoter.vote inputs).map Prod.fst = (majTally inputs).map Prod.fst) ∧
    MajorityVoter.vote [[("f", "A")], [("f", "A")], [("f", "B")]]
      = [("f", "A")] := by
  refine ⟨fun m u => mCount_majTally m u inputs, ?_, ?_, by rfl⟩
  · intro e he
    obtain ⟨v, tail, hvt⟩ :=
      List.exists_cons_of_ne_nil (majTally_nonempty inputs e he)
    obtain ⟨pre, post, hsplit, hpre, hpost⟩ := pickMax_first v tail
    refine ⟨pickMax v tail, pre, post, hvt ▸ hsplit, hpre, hpost, ?_⟩
    rw [MajorityVoter.vote]
    apply List.mem_filterMap.mpr
    refine ⟨e, he, ?_⟩
    rw [hvt]
  · rw [MajorityVoter.vote]
    exact majVote_names _ (majTally_nonempty inputs)

/-- Witness for C8: the concrete three-voter instance, obtained by applying
`majorityVoter_vote_spec` at it. -/
theorem majorityVoter_vote_spec_witness :
    MajorityVoter.vote [[("f", "A")], [("f", "A")], [("f", "B")]]
      = [("f", "A")] :=
  (majorityVoter_vote_spec [[("f", "A")], [("f", "A")], [("f", "B")]]).2.2.2

/-! ### Processor claims (C3, C4, C5) -/

theorem loadExisting_all_ok (caches : List (Option (Except Unit StoredAnn)))
    (h : ∀ c ∈ caches, ∃ x, c = some (Except.ok x)) :
    (loadExisting caches).length = caches.length := by
  induction caches with
  | nil => rfl
  | cons c rest ih =>
    obtain ⟨x, rfl⟩ := h c (List.mem_cons_self _ _)
    rw [loadExisting, List.filterMap_cons]
    simp only [List.length_cons]
    have := ih (fun c2 hc2 => h c2 (List.mem_cons_of_mem _ hc2))
    rw [loadExisting] at this
    simpa using this

/-- C4: the resumability cache check.  Single-result mode: a cache file that
exists, loads, and carries a truthy `result` payload is returned as is, with
no remote call and no write.  Sampling mode: when every sample slot has a
cache file that loads, the loaded list is returned, again with no remote
call and no write. -/
theorem processor_cache_hit (inp : SingleInput) (sinp : SamplingInput)
    (stem stem2 : String) (r : StoredAnn)
    (h1 : inp.cached = some (Except.ok r))
    (h2 : cachedPayloadTruthy r = true)
    (h3 : ∀ c ∈ sinp.caches, ∃ x, c = some (Except.ok x)) :
    processSingleMode inp stem = (some r, []) ∧
    processSamplingMode sinp stem2 = (some (loadExisting sinp.caches), []) := by
  constructor
  · obtain ⟨cached, annOut, now⟩ := inp
    simp only at h1
    subst h1
    simp [processSingleMode, h2]
  · rw [processSamplingMode]
    rw [if_pos (loadExisting_all_ok sinp.caches h3)]

/-- Witness for C4: a concrete cached single-mode result and a concrete
fully-cached two-slot sampling state, via `processor_cache_hit`. -/
theorem processor_cache_hit_witness :
    processSingleMode
      ⟨some (Except.ok ⟨some (JVal.jstr "x"), some 0, none, none, []⟩),
        Except.error (), 0⟩ "img"
      = (some ⟨some (JVal.jstr "x"), some 0, none, none, []⟩, []) ∧
    processSamplingMode
      ⟨[some (Except.ok ⟨some (JVal.jstr "x"), some 0, none, none, []⟩),
        some (Except.ok ⟨some (JVal.jstr "y"), some 1, none, none, []⟩)],
        Except.error (), 0, none⟩ "img"
      = (some [⟨some (JVal.jstr "x"), some 0, none, none, []⟩,
               ⟨some (JVal.jstr "y"), some 1, none, none, []⟩], []) :=
  processor_cache_hit
    ⟨some (Except.ok ⟨some (JVal.jstr "x"), some 0, none, none, []⟩),
      Except.error (), 0⟩
    ⟨[some (Except.ok ⟨some (JVal.jstr "x"), some 0, none, none, []⟩),
      some (Except.ok ⟨some (JVal.jstr "y"), some 1, none, none, []⟩)],
      Except.error (), 0, none⟩
    "img" "img" ⟨some (JVal.jstr "x"), some 0, none, none, []⟩ rfl rfl
    (by
      intro c hc
      rcases List.mem_cons.mp hc with rfl | hc2
      · exact ⟨_, rfl⟩
      · rcases List.mem_singleton.mp hc2 with rfl
        exact ⟨_, rfl⟩)

/-- C5 counterexample: two sample slots, slot 0 cached and slot 1 missing.
The code clears the partial results, issues one annotate call regenerating
both samples, writes slot 0's cache path again, and returns the regenerated
samples — the cached slot-0 entry is neither kept as the slot's source nor
left unwritten. -/
theorem sampling_partial_counterexample :
    processSamplingMode
      ⟨[some (Except.ok ⟨some (JVal.jstr "old"), some 1, some 0, none, []⟩),
        none],
        Except.ok ⟨[Except.ok (JVal.jstr "new0"), Except.ok (JVal.jstr "new1")], []⟩,
        2, none⟩ "img"
      = (some [⟨some (JVal.jstr "new0"), some 2, some 0, none, []⟩,
               ⟨some (JVal.jstr "new1"), some 2, some 1, none, []⟩],
         [Eff.remoteCall,
          Eff.write "sample_0/img.json"
            ⟨some (JVal.jstr "new0"), some 2, some 0, none, []⟩,
          Eff.write "sample_1/img.json"
            ⟨some (JVal.jstr "new1"), some 2, some 1, none, []⟩]) ∧
    (⟨some (JVal.jstr "new0"), some 2, some 0, none, []⟩ : StoredAnn)
      ≠ ⟨some (JVal.jstr "old"), some 1, some 0, none, []⟩ := by
  constructor
  · rfl
  · intro h
    have h2 := congrArg StoredAnn.timestamp h
    simp at h2

theorem sampleLoop_write (extra : List (String × JVal)) (now : Int)
    (temp : Option ℚ) (stem : String) (n : Nat) :
    ∀ (samples : List (Except Unit JVal)) (j i : Nat) (r : Except Unit JVal)
      (pr : StoredAnn),
      samples[i]? = some r → j + i < n →
      parseAndValidate r now (some (j + i)) temp = some pr →
      Eff.write (samplePath (j + i) stem) { pr with extra := extra }
        ∈ (sampleLoop extra now temp stem n j samples).2.1 := by
  intro samples
  induction samples with
  | nil =>
    intro j i r pr hget
    simp at hget
  | cons s rest ih =>
    intro j i r pr hget hlt hparse
    cases i with
    | zero =>
      rw [List.getElem?_cons_zero] at hget
      injection hget with hget
      subst hget
      rw [Nat.add_zero] at hlt hparse ⊢
      rw [sampleLoop, hparse]
      rcases hrec : sampleLoop extra now temp stem n (j + 1) rest with ⟨ss, ee, aa⟩
      simp only [if_pos hlt, hrec]
      rw [saveResultEffects]
      exact List.mem_cons_self _ _
    | succ i2 =>
      rw [List.getElem?_cons_succ] at hget
      rw [sampleLoop]
      have hj : j < n := by omega
      have harith : (j + 1) + i2 = j + (i2 + 1) := by omega
      have hmem := ih (j + 1) i2 r pr hget (by omega)
        (by rw [harith]; exact hparse)
      rw [harith] at hmem
      cases hp : parseAndValidate s now (some j) temp with
      | none => exact hmem
      | some pr2 =>
        rcases hrec : sampleLoop extra now temp stem n (j + 1) rest with ⟨ss, ee, aa⟩
        dsimp only
        rw [if_pos hj]
        dsimp only
        apply List.mem_append_right
        rw [hrec] at hmem
        exact hmem

/-- C5 amended: when some but not all sample slots are cached,
`_process_sampling_mode` does not re-request only the missing samples — it
invokes the annotator (one call regenerating all samples), and every
returned sample that parses, including those whose slot already had a cached
file, is written to its slot path again. -/
theorem sampling_partial_regenerates_all (inp : SamplingInput) (stem : String)
    (h : (loadExisting inp.caches).length ≠ inp.caches.length) :
    (∃ rest, (processSamplingMode inp stem).2 = Eff.remoteCall :: rest) ∧
    (∀ raw, inp.annOut = Except.ok raw →
      ∀ i r pr, raw.samples[i]? = some r → i < inp.caches.length →
        parseAndValidate r inp.now (some i) inp.temperature = some pr →
        Eff.write (samplePath i stem) { pr with extra := raw.extra }
          ∈ (processSamplingMode inp stem).2) := by
  constructor
  · rw [processSamplingMode]
    rw [if_neg h]
    cases hout : inp.annOut with
    | error e => exact ⟨[], rfl⟩
    | ok raw =>
      rcases hrec : sampleLoop raw.extra inp.now inp.temperature stem
        inp.caches.length 0 raw.samples with ⟨ss, ee, aa⟩
      simp only [hrec]
      exact ⟨ee, rfl⟩
  · intro raw hout i r pr hget hi hparse
    rw [processSamplingMode, if_neg h, hout]
    rcases hrec : sampleLoop raw.extra inp.now inp.temperature stem
      inp.caches.length 0 raw.samples with ⟨ss, ee, aa⟩
    simp only [hrec]
    apply List.mem_cons_of_mem
    have := sampleLoop_write raw.extra inp.now inp.temperature stem
      inp.caches.length raw.samples 0 i r pr
      (by simpa using hget) (by simpa using hi) (by simpa using hparse)
    rw [hrec] at this
    simpa using this

/-- Witness for C5's amended theorem: the counterexample state (slot 0
cached, slot 1 missing), via `sampling_partial_regenerates_all`. -/
theorem sampling_partial_regenerates_all_witness :
    ∃ rest,
      (processSamplingMode
        ⟨[some (Except.ok ⟨some (JVal.jstr "old"), some 1, some 0, none, []⟩),
          none],
          Except.ok ⟨[Except.ok (JVal.jstr "new0"), Except.ok (JVal.jstr "new1")], []⟩,
          2, none⟩ "img").2 = Eff.remoteCall :: rest :=
  (sampling_partial_regenerates_all
    ⟨[some (Except.ok ⟨some (JVal.jstr "old"), some 1, some 0, none, []⟩),
      none],
      Except.ok ⟨[Except.ok (JVal.jstr "new0"), Except.ok (JVal.jstr "new1")], []⟩,
      2, none⟩ "img" (by simp [loadExisting])).1

/-- C3 counterexample: `_save_result` does not write-to-temp-and-rename; at
a concrete result and path its effect trace is a single direct write, so no
temp/rename decomposition exists. -/
theorem saveResult_not_atomic :
    ¬ atomicSaveShape ⟨some (JVal.jstr "x"), some 0, none, none, []⟩
      "res.json" := by
  rintro ⟨tmp, c, hne, h⟩
  have := congrArg List.length h
  simp [saveResultEffects] at this

theorem sampleLoop_no_rename (extra : List (String × JVal)) (now : Int)
    (temp : Option ℚ) (stem : String) (n : Nat) :
    ∀ (samples : List (Except Unit JVal)) (j : Nat),
      ∀ e ∈ (sampleLoop extra now temp stem n j samples).2.1,
        ∀ a b, e ≠ Eff.rename a b := by
  intro samples
  induction samples with
  | nil =>
    intro j e he
    simp [sampleLoop] at he
  | cons s rest ih =>
    intro j e he
    rw [sampleLoop] at he
    cases hp : parseAndValidate s now (some j) temp with
    | none =>
      rw [hp] at he
      exact ih (j + 1) e he
    | some pr =>
      rw [hp] at he
      by_cases hj : j < n
      · rcases hrec : sampleLoop extra now temp stem n (j + 1) rest with ⟨ss, ee, aa⟩
        rw [hrec] at he
        dsimp only at he
        rw [if_pos hj] at he
        simp only [saveResultEffects, List.cons_append, List.nil_append] at he
        rcases List.mem_cons.mp he with rfl | he2
        · intro a b hcontra
          exact Eff.noConfusion hcontra
        · exact ih (j + 1) e (by rw [hrec]; exact he2)
      · dsimp only at he
        rw [if_neg hj] at he
        simp at he

/-- C3 amended: `_save_result` performs exactly one direct write to the
destination path — no temporary file and no rename — and accordingly no
effect trace of either processing mode ever contains a rename (a crash
mid-write can therefore leave a partial file at the destination; the
atomicity the spec asserts is absent). -/
theorem saveResult_direct_write (r : StoredAnn) (p : String) :
    saveResultEffects r p = [Eff.write p r] ∧
    (∀ inp stem, ∀ e ∈ (processSingleMode inp stem).2,
      ∀ a b, e ≠ Eff.rename a b) ∧
    (∀ sinp stem, ∀ e ∈ (processSamplingMode sinp stem).2,
      ∀ a b, e ≠ Eff.rename a b) := by
  refine ⟨rfl, ?_, ?_⟩
  · intro inp stem e he a b
    obtain ⟨cached, annOut, now⟩ := inp
    have hfetch : ∀ e2 ∈ (singleFetch annOut now stem).2, e2 ≠ Eff.rename a b := by
      intro e2 he2
      cases annOut with
      | error u =>
        simp only [singleFetch] at he2
        rcases List.mem_singleton.mp he2 with rfl
        exact fun hc => Eff.noConfusion hc
      | ok raw =>
        simp only [singleFetch] at he2
        cases hp : parseAndValidate raw now none none with
        | none =>
          rw [hp] at he2
          rcases List.mem_singleton.mp he2 with rfl
          exact fun hc => Eff.noConfusion hc
        | some pr =>
          rw [hp] at he2
          simp only [saveResultEffects] at he2
          rcases List.mem_cons.mp he2 with rfl | he3
          · exact fun hc => Eff.noConfusion hc
          · rcases List.mem_singleton.mp he3 with rfl
            exact fun hc => Eff.noConfusion hc
    rw [processSingleMode] at he
    dsimp only at he
    cases cached with
    | none => exact hfetch e he
    | some load =>
      cases load with
      | error u => exact hfetch e he
      | ok rr =>
        dsimp only at he
        by_cases ht : cachedPayloadTruthy rr = true
        · rw [if_pos ht] at he
          simp at he
        · rw [if_neg ht] at he
          exact hfetch e he
  · intro sinp stem e he a b
    rw [processSamplingMode] at he
    by_cases hall : (loadExisting sinp.caches).length = sinp.caches.length
    · rw [if_pos hall] at he
      simp at he
    · rw [if_neg hall] at he
      cases hout : sinp.annOut with
      | error u =>
        rw [hout] at he
        rcases List.mem_singleton.mp he with rfl
        exact fun hc => Eff.noConfusion hc
      | ok raw =>
        rw [hout] at he
        dsimp only at he
        rcases hrec : sampleLoop raw.extra sinp.now sinp.temperature stem
          sinp.caches.length 0 raw.samples with ⟨ss, ee, aa⟩
        rw [hrec] at he
        dsimp only at he
        rcases List.mem_cons.mp he with rfl | he2
        · exact fun hc => Eff.noConfusion hc
        · have := sampleLoop_no_rename raw.extra sinp.now sinp.temperature
            stem sinp.caches.length raw.samples 0 e (by rw [hrec]; exact he2) a b
          exact this

/-- Witness for C3's amended theorem: a concrete save is the single direct
write, via `saveResult_direct_write`. -/
theorem saveResult_direct_write_witness :
    saveResultEffects ⟨some (JVal.jstr "x"), some 0, none, none, []⟩ "res.json"
      = [Eff.write "res.json" ⟨some (JVal.jstr "x"), some 0, none, none, []⟩] :=
  (saveResult_direct_write ⟨some (JVal.jstr "x"), some 0, none, none, []⟩
    "res.json").1

/-! ### VotingManager claims (C6, C9, C2) -/

theorem stepSlot_noData (s : AnnSlot) (h : slotNoData s) :
    (stepSlot s).1 = [] := by
  obtain ⟨hc, u, hout⟩ := h
  rcases hc with hc | ⟨u2, hc⟩
  · rw [stepSlot, hc, hout]
  · rw [stepSlot, hc]

theorem annotateWithAll_noData (slots : List AnnSlot)
    (h : ∀ s ∈ slots, slotNoData s) : (annotateWithAll slots).1 = [] := by
  induction slots with
  | nil => rfl
  | cons s rest ih =>
    rw [annotateWithAll]
    rcases h1 : stepSlot s with ⟨r1, s1, n1⟩
    rcases h2 : annotateWithAll rest with ⟨rs, rest2, n⟩
    have hr1 : r1 = [] := by
      have := stepSlot_noData s (h s (List.mem_cons_self _ _))
      rw [h1] at this
      exact this
    have hrs : rs = [] := by
      have := ih (fun s2 hs2 => h s2 (List.mem_cons_of_mem _ hs2))
      rw [h2] at this
      exact this
    simp [hr1, hrs]

/-- C6: when no annotation results are available for an image — no voted
cache, and every annotator slot has neither a loadable cache file nor a
successful call — `get_voted_result` raises
`ValueError("No valid annotations to vote on")` and never returns a
consensus record; and the `WeightedVoter` itself rejects an empty annotation
list with `ValueError("No annotations provided")`. -/
theorem getVotedResult_no_data (voter : Voter) (slots : List AnnSlot)
    (h : ∀ s ∈ slots, slotNoData s) :
    (getVotedResult voter slots none).outcome
      = Except.error "No valid annotations to vote on" ∧
    (∀ v, (getVotedResult voter slots none).outcome ≠ Except.ok v) ∧
    (∀ w idsOpt, WeightedVoter.vote w [] idsOpt
      = Except.error "No annotations provided") := by
  have hout : (getVotedResult voter slots none).outcome
      = Except.error "No valid annotations to vote on" := by
    rw [getVotedResult]
    rcases hrec : annotateWithAll slots with ⟨results, slots2, n⟩
    have hres : results = [] := by
      have := annotateWithAll_noData slots h
      rw [hrec] at this
      exact this
    subst hres
    rfl
  refine ⟨hout, ?_, fun w idsOpt => rfl⟩
  intro v hv
  rw [hout] at hv
  exact Except.noConfusion hv

/-- Witness for C6: one annotator, no cache file, failing call, via
`getVotedResult_no_data`. -/
theorem getVotedResult_no_data_witness :
    (getVotedResult (WeightedVoter.vote [])
      [⟨"OpenAIAnnotator/gpt-4", none, Except.error ()⟩] none).outcome
      = Except.error "No valid annotations to vote on" :=
  (getVotedResult_no_data (WeightedVoter.vote [])
    [⟨"OpenAIAnnotator/gpt-4", none, Except.error ()⟩]
    (by
      intro s hs
      rcases List.mem_singleton.mp hs with rfl
      exact ⟨Or.inl rfl, ⟨(), rfl⟩⟩)).1

/-- On a cache-miss with a non-empty result set and a successful vote,
`get_voted_result` returns and persists the voted result with metadata
`{"annotators": ids}`. -/
theorem getVotedResult_success (voter : Voter) (slots : List AnnSlot)
    (results : List (String × VAnnot)) (slots2 : List AnnSlot) (n : Nat)
    (out : VoteOutput)
    (h1 : annotateWithAll slots = (results, slots2, n))
    (h2 : results ≠ [])
    (h3 : voter (results.map Prod.snd) (some (results.map Prod.fst))
      = Except.ok out) :
    getVotedResult voter slots none
      = ⟨Except.ok ⟨out, ⟨some (results.map Prod.fst), none, none, none⟩⟩,
         slots2,
         some (Except.ok ⟨out, ⟨some (results.map Prod.fst), none, none, none⟩⟩),
         n⟩ := by
  rw [getVotedResult, h1]
  dsimp only
  rw [if_neg (by simpa [List.isEmpty_iff] using h2), h3]

/-- On a cache-miss with a successful vote, the voting-loop body replaces
the persisted metadata with the task metadata. -/
theorem voteLoopBody_success (taskId imagePath now : String) (voter : Voter)
    (slots : List AnnSlot) (results : List (String × VAnnot))
    (slots2 : List AnnSlot) (n : Nat) (out : VoteOutput)
    (h1 : annotateWithAll slots = (results, slots2, n))
    (h2 : results ≠ [])
    (h3 : voter (results.map Prod.snd) (some (results.map Prod.fst))
      = Except.ok out) :
    voteLoopBody taskId imagePath now voter slots none
      = (slots2,
         some (Except.ok ⟨out, ⟨none, some taskId, some imagePath, some now⟩⟩),
         n) := by
  rw [voteLoopBody, getVotedResult_success voter slots results slots2 n out h1 h2 h3]

/-- C9 amended: on a cache-miss with a successful vote, the voted result
`get_voted_result` persists carries metadata holding only the `annotators`
key, and the batch driver then replaces the whole metadata dict, so the
final persisted voted result carries `task_id`, `image_path` and
`timestamp` but no `annotators` key — no persisted voted result ever holds
all four keys at once. -/
theorem votedResult_metadata_spec (taskId imagePath now : String)
    (voter : Voter) (slots : List AnnSlot)
    (results : List (String × VAnnot)) (slots2 : List AnnSlot) (n : Nat)
    (out : VoteOutput)
    (h1 : annotateWithAll slots = (results, slots2, n))
    (h2 : results ≠ [])
    (h3 : voter (results.map Prod.snd) (some (results.map Prod.fst))
      = Except.ok out) :
    getVotedResult voter slots none
      = ⟨Except.ok ⟨out, ⟨some (results.map Prod.fst), none, none, none⟩⟩,
         slots2,
         some (Except.ok ⟨out, ⟨some (results.map Prod.fst), none, none, none⟩⟩),
         n⟩ ∧
    voteLoopBody taskId imagePath now voter slots none
      = (slots2,
         some (Except.ok ⟨out, ⟨none, some taskId, some imagePath, some now⟩⟩),
         n) :=
  ⟨getVotedResult_success voter slots results slots2 n out h1 h2 h3,
   voteLoopBody_success taskId imagePath now voter slots results slots2 n out h1 h2 h3⟩

/-- Witness for C9's amended theorem: the concrete one-annotator image, via
`votedResult_metadata_spec`. -/
theorem votedResult_metadata_spec_witness :
    voteLoopBody "task1" "img.png" "2025-01-01 00:00:00"
      (fun _ _ => Except.ok ⟨[⟨"f", "X", 1⟩]⟩)
      [⟨"A/m",
        some (Except.ok ⟨some ⟨[⟨some "f", some "X", some 1⟩]⟩, none⟩),
        Except.error ()⟩]
      none
      = ([⟨"A/m",
           some (Except.ok ⟨some ⟨[⟨some "f", some "X", some 1⟩]⟩, none⟩),
           Except.error ()⟩],
         some (Except.ok
           ⟨⟨[⟨"f", "X", 1⟩]⟩,
            ⟨none, some "task1", some "img.png", some "2025-01-01 00:00:00"⟩⟩),
         0) :=
  (votedResult_metadata_spec "task1" "img.png" "2025-01-01 00:00:00"
    (fun _ _ => Except.ok ⟨[⟨"f", "X", 1⟩]⟩)
    [⟨"A/m",
      some (Except.ok ⟨some ⟨[⟨some "f", some "X", some 1⟩]⟩, none⟩),
      Except.error ()⟩]
    [("A/m", ⟨some ⟨[⟨some "f", some "X", some 1⟩]⟩, none⟩)]
    [⟨"A/m",
      some (Except.ok ⟨some ⟨[⟨some "f", some "X", some 1⟩]⟩, none⟩),
      Except.error ()⟩]
    0 ⟨[⟨"f", "X", 1⟩]⟩ rfl (List.cons_ne_nil _ _) rfl).2

theorem annotateWithAll_productive_len (slots : List AnnSlot)
    (h : ∀ s ∈ slots, slotProductive s) :
    (annotateWithAll slots).1.length = slots.length := by
  induction slots with
  | nil => rfl
  | cons s rest ih =>
    rw [annotateWithAll]
    rcases h1 : stepSlot s with ⟨r1, s1, n1⟩
    rcases h2 : annotateWithAll rest with ⟨rs, rest2, n⟩
    have hr1 : r1.length = 1 := by
      rcases h s (List.mem_cons_self _ _) with ⟨r, hc⟩ | ⟨hc, r, hout⟩
      · rw [stepSlot, hc] at h1
        injection h1 with h1a
        rw [← h1a]
        rfl
      · rw [stepSlot, hc, hout] at h1
        injection h1 with h1a
        rw [← h1a]
        rfl
    have hrs : rs.length = rest.length := by
      have := ih (fun s2 hs2 => h s2 (List.mem_cons_of_mem _ hs2))
      rw [h2] at this
      exact this
    simp only [List.length_cons, List.length_append, hr1, hrs]
    omega

/-- The second run's voting pass for an image whose voted-result file
exists: `get_voted_result` loads it without any annotator call, and the
loop body re-saves it with replaced task metadata. -/
theorem voteLoopBody_cached (taskId imagePath now : String) (voter : Voter)
    (slots : List AnnSlot) (v1 : VotedStored) :
    voteLoopBody taskId imagePath now voter slots (some (Except.ok v1))
      = (slots,
         some (Except.ok
           { v1 with metadata := ⟨none, some taskId, some imagePath, some now⟩ }),
         0) := rfl

/-- C2 amended: with every annotator slot resolvable, the first run
persists a voted result; the second run issues zero remote annotator calls,
leaves every per-annotator cache unchanged, and reads the voted result from
cache — but it re-writes the voted file with the second run's timestamp in
its metadata (the voted `result` payload is unchanged), so the persisted
bytes are identical only when the two runs' wall-clock timestamps
coincide. -/
theorem second_run_reads_cache (taskId imagePath t1 t2 : String)
    (w : Weights) (slots : List AnnSlot) (h1 : slots ≠ [])
    (h2 : ∀ s ∈ slots, slotProductive s) :
    ∃ slots1 v1 n1,
      voteLoopBody taskId imagePath t1 (WeightedVoter.vote w) slots none
        = (slots1, some (Except.ok v1), n1) ∧
      v1.metadata.timestamp = some t1 ∧
      voteLoopBody taskId imagePath t2 (WeightedVoter.vote w) slots1
          (some (Except.ok v1))
        = (slots1,
           some (Except.ok
             { v1 with metadata := ⟨none, some taskId, some imagePath, some t2⟩ }),
           0) ∧
      ({ v1 with
          metadata := ⟨none, some taskId, some imagePath, some t2⟩ }).result
        = v1.result := by
  rcases hrec : annotateWithAll slots with ⟨results, slots2, n⟩
  have hlen : results.length = slots.length := by
    have := annotateWithAll_productive_len slots h2
    rw [hrec] at this
    exact this
  have hres : results ≠ [] := by
    intro hcontra
    subst hcontra
    rcases slots with _ | ⟨s, rest⟩
    · exact h1 rfl
    · simp at hlen
  have hvote : WeightedVoter.vote w (results.map Prod.snd)
      (some (results.map Prod.fst))
      = Except.ok (compileResults
          (tallyAnnotations w (results.map Prod.snd) (results.map Prod.fst))) :=
    vote_reduce w _ _ (by simpa using hres) (by simpa using hres) (by simp)
  refine ⟨slots2,
    ⟨compileResults
        (tallyAnnotations w (results.map Prod.snd) (results.map Prod.fst)),
      ⟨none, some taskId, some imagePath, some t1⟩⟩, n,
    voteLoopBody_success taskId imagePath t1 (WeightedVoter.vote w) slots
      results slots2 n _ hrec hres hvote, rfl,
    voteLoopBody_cached taskId imagePath t2 (WeightedVoter.vote w) slots2 _,
    rfl⟩

/-- Witness for C2's amended theorem: one concretely cached annotator, via
`second_run_reads_cache`. -/
theorem second_run_reads_cache_witness :
    ∃ slots1 v1 n1,
      voteLoopBody "task1" "img.png" "2025-01-01 00:00:00"
        (WeightedVoter.vote [])
        [⟨"A/m",
          some (Except.ok ⟨some ⟨[⟨some "f", some "X", some 1⟩]⟩, none⟩),
          Except.error ()⟩] none
        = (slots1, some (Except.ok v1), n1) ∧
      v1.metadata.timestamp = some "2025-01-01 00:00:00" ∧
      voteLoopBody "task1" "img.png" "2025-01-01 00:00:01"
        (WeightedVoter.vote []) slots1 (some (Except.ok v1))
        = (slots1,
           some (Except.ok
             { v1 with metadata :=
                ⟨none, some "task1", some "img.png",
                 some "2025-01-01 00:00:01"⟩ }),
           0) ∧
      ({ v1 with metadata :=
          ⟨none, some "task1", some "img.png",
           some "2025-01-01 00:00:01"⟩ }).result = v1.result :=
  second_run_reads_cache "task1" "img.png" "2025-01-01 00:00:00"
    "2025-01-01 00:00:01" []
    [⟨"A/m",
      some (Except.ok ⟨some ⟨[⟨some "f", some "X", some 1⟩]⟩, none⟩),
      Except.error ()⟩]
    (List.cons_ne_nil _ _)
    (by
      intro s hs
      rcases List.mem_singleton.mp hs with rfl
      exact Or.inl ⟨_, rfl⟩)

/-- C2 counterexample: a concrete one-annotator batch run twice at
different wall-clock seconds.  The second run issues zero annotator calls,
but it overwrites the voted-result file with a fresh timestamp, so the
persisted voted result differs from the first run's — the runs are not
byte-identical. -/
theorem idempotence_counterexample :
    voteLoopBody "task1" "img.png" "2025-01-01 00:00:00"
      (WeightedVoter.vote [])
      [⟨"A/m",
        some (Except.ok ⟨some ⟨[⟨some "f", some "X", some 1⟩]⟩, none⟩),
        Except.error ()⟩] none
      = ([⟨"A/m",
           some (Except.ok ⟨some ⟨[⟨some "f", some "X", some 1⟩]⟩, none⟩),
           Except.error ()⟩],
         some (Except.ok
           ⟨⟨[⟨"f", "X", 1⟩]⟩,
            ⟨none, some "task1", some "img.png", some "2025-01-01 00:00:00"⟩⟩),
         0) ∧
    voteLoopBody "task1" "img.png" "2025-01-01 00:00:01"
      (WeightedVoter.vote [])
      [⟨"A/m",
        some (Except.ok ⟨some ⟨[⟨some "f", some "X", some 1⟩]⟩, none⟩),
        Except.error ()⟩]
      (some (Except.ok
        ⟨⟨[⟨"f", "X", 1⟩]⟩,
         ⟨none, some "task1", some "img.png", some "2025-01-01 00:00:00"⟩⟩))
      = ([⟨"A/m",
           some (Except.ok ⟨some ⟨[⟨some "f", some "X", some 1⟩]⟩, none⟩),
           Except.error ()⟩],
         some (Except.ok
           ⟨⟨[⟨"f", "X", 1⟩]⟩,
            ⟨none, some "task1", some "img.png", some "2025-01-01 00:00:01"⟩⟩),
         0) ∧
    (⟨⟨[⟨"f", "X", 1⟩]⟩,
      ⟨none, some "task1", some "img.png",
       some "2025-01-01 00:00:01"⟩⟩ : VotedStored)
      ≠ ⟨⟨[⟨"f", "X", 1⟩]⟩,
         ⟨none, some "task1", some "img.png", some "2025-01-01 00:00:00"⟩⟩ := by
  refine ⟨?_, rfl, ?_⟩
  · norm_num +decide [voteLoopBody, getVotedResult, annotateWithAll, stepSlot,
      WeightedVoter.vote, tallyAnnotations, processFields, compileResults,
      getFields, pyTruthy, getWeight, bumpField, bumpValue, pickMax, sumSnd,
      Except.bind, List.filterMap_cons]
  · intro hcontra
    have := congrArg (fun v => v.metadata.timestamp) hcontra
    simp at this

/-! ### Batch-driver claim (C7) -/

/-- C7 amended: selecting the `highest_confidence` ensemble strategy does
abort the run before any annotator is invoked and never silently falls back
to another strategy — no annotation pass, no voting pass and no dataset
conversion appear in the trace — but not through the claimed "not
implemented" error: every run with a non-empty image set aborts with the
`TypeError` raised at the `ParallelProcessor` construction
(`run_annotation.py` line 94 passes `max_workers`, which
`ParallelProcessor.__init__` does not accept), re-raised by the outer
handler; the `NotImplementedError` branch for `highest_confidence` (lines
107-112) is dead code, sequenced after the annotation phase and never
reached. -/
theorem highestConfidence_aborts_with_typeerror (images : List String)
    (createDs : Bool) (h : images ≠ []) :
    runBatchAnnotate images (some (true, "highest_confidence")) createDs
      = ([], Except.error
          "TypeError: ParallelProcessor.__init__() got an unexpected keyword argument max_workers") ∧
    (runBatchAnnotate images (some (true, "highest_confidence")) createDs).2
      ≠ Except.error "HighestConfidenceVoter is not implemented yet." ∧
    BatchEv.runAnnotators images
      ∉ (runBatchAnnotate images
          (some (true, "highest_confidence")) createDs).1 ∧
    (∀ img, BatchEv.voteImage img
      ∉ (runBatchAnnotate images
          (some (true, "highest_confidence")) createDs).1) ∧
    BatchEv.createDataset
      ∉ (runBatchAnnotate images
          (some (true, "highest_confidence")) createDs).1 := by
  have heq : runBatchAnnotate images (some (true, "highest_confidence")) createDs
      = ([], Except.error
          "TypeError: ParallelProcessor.__init__() got an unexpected keyword argument max_workers") := by
    rw [runBatchAnnotate, if_neg (by simpa [List.isEmpty_iff] using h)]
    rfl
  refine ⟨heq, ?_, ?_, ?_, ?_⟩
  · rw [heq]
    simp
  · rw [heq]
    simp
  · intro img
    rw [heq]
    simp
  · rw [heq]
    simp

/-- Witness for C7's amended theorem: a concrete one-image run, via
`highestConfidence_aborts_with_typeerror`. -/
theorem highestConfidence_aborts_with_typeerror_witness :
    runBatchAnnotate ["img1.png"] (some (true, "highest_confidence")) false
      = ([], Except.error
          "TypeError: ParallelProcessor.__init__() got an unexpected keyword argument max_workers") :=
  (highestConfidence_aborts_with_typeerror ["img1.png"] false
    (List.cons_ne_nil _ _)).1

/-- C7 counterexample: with one image and the `highest_confidence` method,
the run does not fail with the claimed clear "not implemented" error — it
aborts with the `TypeError` from the `ParallelProcessor` construction,
before the strategy string is ever resolved, so the `NotImplementedError`
branch is never reached. -/
theorem highestConfidence_counterexample :
    runBatchAnnotate ["img1.png"] (some (true, "highest_confidence")) false
      = ([], Except.error
          "TypeError: ParallelProcessor.__init__() got an unexpected keyword argument max_workers") ∧
    (runBatchAnnotate ["img1.png"]
      (some (true, "highest_confidence")) false).2
      ≠ Except.error "HighestConfidenceVoter is not implemented yet." := by
  have heq : runBatchAnnotate ["img1.png"]
      (some (true, "highest_confidence")) false
      = ([], Except.error
          "TypeError: ParallelProcessor.__init__() got an unexpected keyword argument max_workers") := rfl
  refine ⟨heq, ?_⟩
  rw [heq]
  simp

/-- C9 counterexample: a concrete one-annotator image.  The final persisted
voted result's metadata holds `task_id`, `image_path` and `timestamp` but
its `annotators` entry is absent — the persisted shape never holds all four
keys. -/
theorem votedResult_metadata_counterexample :
    (voteLoopBody "task1" "img.png" "2025-01-01 00:00:00"
      (WeightedVoter.vote [])
      [⟨"A/m",
        some (Except.ok ⟨some ⟨[⟨some "f", some "X", some 1⟩]⟩, none⟩),
        Except.error ()⟩]
      none).2.1
      = some (Except.ok
          ⟨⟨[⟨"f", "X", 1⟩]⟩,
           ⟨none, some "task1", some "img.png", some "2025-01-01 00:00:00"⟩⟩) ∧
    (⟨none, some "task1", some "img.png",
        some "2025-01-01 00:00:00"⟩ : VotedMeta).annotators = none := by
  constructor
  · norm_num +decide [voteLoopBody, getVotedResult, annotateWithAll, stepSlot,
      WeightedVoter.vote, tallyAnnotations, processFields, compileResults,
      getFields, pyTruthy, getWeight, bumpField, bumpValue, pickMax, sumSnd,
      Except.bind, List.filterMap_cons]
  · rfl

end OCR
